import Mathlib

/-!
# dllx: archive reader and platform loader

A shallow embedding of `src/go/dllx/dllx.go` (package `dllx`): the `Manifest`
record, `extractDllx`, `readManifestFromDllx` and `loadLibrary`, together with
a small model of the operating-system services the code calls
(`filepath.Join`, `os.Create`, `os.MkdirAll`, `zip.OpenReader`, `plugin.Open`).

Modelling conventions

* The file system is a tree, a map from locations (absolute cleaned paths) to
  nodes (a directory or a file with its bytes), and a resolution of paths to
  locations. Different paths can name one location: in the samples, whose
  working directory is `/wd`, a path names the location `filepath.Abs` gives
  it, so that `extracted/x`, `../wd/extracted/x` and `/wd/extracted/x` name
  one file. Paths follow the Unix flavour of `path/filepath`.
* Failures the tree does not explain (permissions, name length, the limit on
  open descriptors, a full disk) are given by arbitrary fault functions of the
  file system; the sample file systems have none.
* An archive is the list of entries `zip.OpenReader` yields, in archive order.
  What `file.Open()` and the reads of the opened entry return is data of the
  entry (`openErr`, `data`, `readErr`).
* `runtime.GOOS`, `zip.OpenReader`, `json.Decoder.Decode` and `plugin.Open`
  are parameters (`Env`); nothing is assumed about them.
* Every `fmt.Errorf` site of the source is one constructor of `DllxError`;
  `DllxError.message` is the formatted text.
-/

namespace Dllx

/-! ## Paths (`path/filepath`, Unix flavour) -/

/-- Split a path at every `/` (like `strings.Split(path, "/")`). -/
def splitSlash : List Char → List (List Char)
  | [] => [[]]
  | c :: cs =>
    match splitSlash cs with
    | [] => [[]]
    | h :: t => if c = '/' then [] :: h :: t else (c :: h) :: t

/-- Concatenate path elements with `/` between them. -/
def joinSlash : List (List Char) → List Char
  | [] => []
  | [x] => x
  | x :: y :: r => x ++ '/' :: joinSlash (y :: r)

/-- One element of `filepath.Clean`'s scan. `stack` holds the elements kept so
far, innermost first. Empty and `.` elements are skipped; `..` removes the
last kept real element, is kept itself when the path is relative and nothing
can be removed, and is dropped at the root. -/
def cleanStep (rooted : Bool) (stack : List (List Char)) (el : List Char) :
    List (List Char) :=
  if el = [] ∨ el = ['.'] then stack
  else if el = ['.', '.'] then
    match stack with
    | [] => if rooted then [] else [el]
    | top :: rest => if top = ['.', '.'] then el :: stack else rest
  else el :: stack

/-- The function `filepath.Clean` on a list of characters. -/
def cleanChars (path : List Char) : List Char :=
  match path with
  | [] => ['.']
  | c :: _ =>
    let rooted : Bool := c = '/'
    let stack := (splitSlash path).foldl (cleanStep rooted) []
    let body := joinSlash stack.reverse
    let out := if rooted then '/' :: body else body
    if out = [] then ['.'] else out

/-- The function `filepath.Clean`: the shortest path naming the same place. -/
def Clean (path : String) : String := String.mk (cleanChars path.data)

/-- The function `filepath.Join` for two elements: empty elements before the
first non-empty one are ignored, the rest is joined with `/` and cleaned; the
result is empty when both elements are. -/
def Join (a b : String) : String :=
  if a ≠ "" then Clean (a ++ "/" ++ b)
  else if b ≠ "" then Clean b
  else ""

/-- The function `filepath.Dir`: everything up to the last `/`, cleaned. -/
def Dir (path : String) : String :=
  Clean (String.mk ((path.data.reverse.dropWhile (fun c => c ≠ '/')).reverse))

/-- The function `filepath.IsAbs`. -/
def IsAbs (path : String) : Bool :=
  match path.data with
  | '/' :: _ => true
  | _ => false

/-- The function `filepath.Abs` in working directory `cwd`: an absolute path
is cleaned, any other path is joined onto the working directory. -/
def Abs (cwd path : String) : String :=
  if IsAbs path then Clean path else Join cwd path

/-- The paths `p`, `Dir p`, `Dir (Dir p)`, ... one per element of `p`. -/
def lineage (p : String) : List String :=
  List.iterate Dir p (splitSlash p.data).length

/-- A cleaned path `p` names `dir` or something below it. -/
def isWithin (dir p : String) : Bool :=
  p = dir || (dir.data ++ ['/']).isPrefixOf p.data

/-! ## File system -/

/-- File contents: a sequence of bytes. -/
abbrev Bytes := List Nat

/-- What a path names. -/
inductive Node where
  | dir
  | file (content : Bytes)
deriving DecidableEq, Repr

/-- The state of the file system. -/
structure FS where
  /-- The location (absolute cleaned path of the file or directory itself)
  that each path names. Without links this is `Abs` in the working directory,
  as in the sample file systems; with symbolic or hard links it also sends the
  paths of one file to one location. Extraction makes no links, so the
  function is the same before and after. -/
  resolve : String → String
  /-- The tree: what each location (absolute cleaned path) holds. -/
  node : String → Option Node
  /-- The number of files created so far; within one call of `extractDllx`
  their descriptors are all still open (`defer outFile.Close()`). -/
  opened : Nat
  /-- Failures of `os.Create` that the tree does not explain (permissions,
  name length, the descriptor limit), by `opened` and location. -/
  createFault : Nat → String → Option String
  /-- Failures of `mkdir` that the tree does not explain, by location. -/
  mkdirFault : String → Option String
  /-- Failures of a write, by location and bytes to write: how many bytes
  reach the file before the failure, and the cause. -/
  writeFault : String → Bytes → Option (Nat × String)

/-- The location a path names. -/
def FS.loc (fs : FS) (p : String) : String := fs.resolve p

/-- What a path names, if anything. -/
def FS.get (fs : FS) (p : String) : Option Node := fs.node (fs.loc p)

instance : CoeFun FS (fun _ => String → Option Node) := ⟨FS.get⟩

/-- Bind location `a` to node `n`. -/
def FS.setLoc (fs : FS) (a : String) (n : Node) : FS :=
  FS.mk fs.resolve (fun b => if b = a then some n else fs.node b) fs.opened
    fs.createFault fs.mkdirFault fs.writeFault

/-- Bind the location that path `p` names to node `n`. -/
def FS.set (fs : FS) (p : String) (n : Node) : FS := fs.setLoc (fs.loc p) n

/-- The working directory `/wd` with nothing in it, and no faults. -/
def FS.empty : FS :=
  FS.mk (Abs "/wd") (fun a => if a = "/wd" then some Node.dir else none) 0
    (fun _ _ => none) (fun _ => none) (fun _ _ => none)

/-- What `os.Stat` finds at a location; the root always exists. -/
def statLoc (fs : FS) (a : String) : Option Node :=
  if a = "/" then some Node.dir else fs.node a

/-- The kernel's walk to a directory, along its lineage (innermost location
first): `none` when the directory exists, otherwise the error text, `not a
directory` when a regular file is in the way and `no such file or directory`
when a directory is missing. -/
def walkDir (fs : FS) : List String → Option String
  | [] => none
  | d :: parents =>
    match statLoc fs d with
    | some Node.dir => none
    | some (Node.file _) => some "not a directory"
    | none =>
      match walkDir fs parents with
      | none => some "no such file or directory"
      | some cause => some cause

/-- The function `os.Create(p)`: open for writing, creating the file if its
parent directory exists and truncating it if the file exists. The error text
is the one of the Go `*PathError`. -/
def osCreate (fs : FS) (p : String) : Except String FS :=
  if p = "" then Except.error ("open " ++ p ++ ": no such file or directory")
  else
    match fs.createFault fs.opened (fs.loc p) with
    | some cause => Except.error ("open " ++ p ++ ": " ++ cause)
    | none =>
      match statLoc fs (fs.loc p) with
      | some Node.dir => Except.error ("open " ++ p ++ ": is a directory")
      | some (Node.file _) =>
        Except.ok (FS.mk fs.resolve (fs.setLoc (fs.loc p) (Node.file [])).node
          (fs.opened + 1) fs.createFault fs.mkdirFault fs.writeFault)
      | none =>
        match walkDir fs (lineage (Dir (fs.loc p))) with
        | some cause => Except.error ("open " ++ p ++ ": " ++ cause)
        | none =>
          Except.ok (FS.mk fs.resolve (fs.setLoc (fs.loc p) (Node.file [])).node
            (fs.opened + 1) fs.createFault fs.mkdirFault fs.writeFault)

/-- The recursion of `os.MkdirAll` along a lineage (innermost location first):
an existing directory ends it with success, an existing file with failure,
and a missing directory is made once its parent has been made. The end of the
lineage is the root. -/
def mkdirChain (fs : FS) : List String → FS × Bool
  | [] => (fs, true)
  | a :: parents =>
    match statLoc fs a with
    | some Node.dir => (fs, true)
    | some (Node.file _) => (fs, false)
    | none =>
      let r := mkdirChain fs parents
      if r.2 then
        match r.1.mkdirFault a with
        | some _ => (r.1, false)
        | none => (r.1.setLoc a Node.dir, true)
      else r

/-- The function `os.MkdirAll(p, perm)`: the resulting file system and whether
the call returned a nil error. -/
def MkdirAll (fs : FS) (p : String) : FS × Bool :=
  if p = "" then (fs, false) else mkdirChain fs (lineage (fs.loc p))

/-- The call `outFile.ReadFrom(zipFile)` for the file created at `destPath`:
the bytes the entry delivers are written to the file; the call fails with the
cause of a failing write, after the bytes written before it, or else with the
error the entry ends with, if any. -/
def readFrom (fs : FS) (destPath : String) (data : Bytes) (readErr : Option String) :
    FS × Option String :=
  match fs.writeFault (fs.loc destPath) data with
  | some (n, cause) => (fs.set destPath (Node.file (data.take n)), some cause)
  | none => (fs.set destPath (Node.file data), readErr)

/-- The content of a node, if it is a file. -/
def nodeFile : Option Node → Option Bytes
  | some (Node.file c) => some c
  | _ => none

/-- The content of the file a path names, if it names a file. -/
def fileAt (fs : FS) (p : String) : Option Bytes := nodeFile (fs p)

/-! ## Archives, manifests, errors, environment -/

/-- An archive entry (`*zip.File`). -/
structure ZipFile where
  /-- The entry name, `file.Name`. -/
  Name : String
  /-- The value of `file.FileInfo().IsDir()`. -/
  IsDir : Bool
  /-- The error of `file.Open()`, if it fails. -/
  openErr : Option String
  /-- The bytes the opened entry delivers; the whole decompressed content when
  `readErr` is `none`. -/
  data : Bytes
  /-- The error the opened entry ends with instead of end-of-file, if any. -/
  readErr : Option String
deriving DecidableEq, Repr

/-- The `Manifest` struct (dllx.go:13-16); `Platforms = none` is the nil map. -/
structure Manifest where
  Name : String
  Platforms : Option (List (String × String))
deriving DecidableEq, Repr

/-- Go map indexing `m[key]`: the zero value `""` for a nil map or an absent
key. -/
def mapIndex (m : Option (List (String × String))) (key : String) : String :=
  match m with
  | none => ""
  | some kvs => (kvs.lookup key).getD ""

/-- A loaded plugin (`*plugin.Plugin`). -/
structure Plugin where
  pluginpath : String
deriving DecidableEq, Repr

/-- The errors the package returns, one constructor per return site. -/
inductive DllxError where
  /-- dllx.go:23 and :59. -/
  | zipOpen (cause : String)
  /-- dllx.go:35. -/
  | createFile (destPath cause : String)
  /-- dllx.go:41. -/
  | openInZip (cause : String)
  /-- dllx.go:47. -/
  | extractFile (cause : String)
  /-- dllx.go:73. -/
  | manifestNotFound
  /-- dllx.go:79. -/
  | manifestOpen (cause : String)
  /-- dllx.go:87. -/
  | manifestDecode (cause : String)
  /-- dllx.go:111. -/
  | unsupportedPlatform (currentPlatform : String)
  /-- dllx.go:122, the error of `plugin.Open` passed through. -/
  | pluginOpen (cause : String)
deriving DecidableEq, Repr

/-- The text of each error, as formatted by the `fmt.Errorf` call. -/
def DllxError.message : DllxError → String
  | DllxError.zipOpen cause => "failed to open zip file: " ++ cause
  | DllxError.createFile destPath cause =>
      "failed to create file " ++ destPath ++ ": " ++ cause
  | DllxError.openInZip cause => "failed to open file inside zip: " ++ cause
  | DllxError.extractFile cause => "failed to extract file: " ++ cause
  | DllxError.manifestNotFound => "manifest.json not found in .dllx file"
  | DllxError.manifestOpen cause => "failed to open manifest.json: " ++ cause
  | DllxError.manifestDecode cause => "failed to decode manifest.json: " ++ cause
  | DllxError.unsupportedPlatform currentPlatform =>
      "unsupported platform: " ++ currentPlatform
  | DllxError.pluginOpen cause => cause

/-- The string `needle` occurs in `msg`. -/
def mentions (msg needle : String) : Bool :=
  msg.data.tails.any (fun t => needle.data.isPrefixOf t)

/-- What the code takes from its surroundings. -/
structure Env where
  /-- The value of `runtime.GOOS`. -/
  GOOS : String
  /-- The function `zip.OpenReader`: the entries of the archive at a path. -/
  zipOpen : String → Except String (List ZipFile)
  /-- Decoding a `Manifest` from the bytes (and final read error) of an entry:
  `json.NewDecoder(r).Decode(&manifest)`. -/
  jsonDecode : Bytes → Option String → Except String Manifest
  /-- The function `plugin.Open` on a file system. -/
  pluginOpen : FS → String → Except String Plugin

/-- The state `loadLibrary` acts on: the file system and the paths handed to
`plugin.Open` so far. -/
structure World where
  fs : FS
  pluginOpens : List String

/-! ## The code -/

/-- The body of the loop of `extractDllx` (dllx.go:29-49) for one entry: the
file system afterwards and the error returned, if any. -/
def extractEntry (targetDir : String) (fs : FS) (file : ZipFile) :
    FS × Option DllxError :=
  let destPath := Join targetDir file.Name
  if file.IsDir then
    ((MkdirAll fs destPath).1, none)
  else
    match osCreate fs destPath with
    | Except.error err => (fs, some (DllxError.createFile destPath err))
    | Except.ok fs1 =>
      match file.openErr with
      | some err => (fs1, some (DllxError.openInZip err))
      | none =>
        match readFrom fs1 destPath file.data file.readErr with
        | (fs2, some err) => (fs2, some (DllxError.extractFile err))
        | (fs2, none) => (fs2, none)

/-- The loop of `extractDllx` (dllx.go:28-51). -/
def extractLoop (targetDir : String) : FS → List ZipFile → FS × Option DllxError
  | fs, [] => (fs, none)
  | fs, file :: rest =>
    match extractEntry targetDir fs file with
    | (fs1, some err) => (fs1, some err)
    | (fs1, none) => extractLoop targetDir fs1 rest

/-- The function `extractDllx` (dllx.go:19-52). -/
def extractDllx (zipOpen : String → Except String (List ZipFile)) (fs : FS)
    (dllxFile targetDir : String) : FS × Option DllxError :=
  match zipOpen dllxFile with
  | Except.error err => (fs, some (DllxError.zipOpen err))
  | Except.ok files => extractLoop targetDir fs files

/-- The search loop of `readManifestFromDllx` (dllx.go:64-70). -/
def findManifest : List ZipFile → Option ZipFile
  | [] => none
  | file :: rest =>
    if file.Name = "manifest.json" then some file else findManifest rest

/-- The part of `readManifestFromDllx` after the search (dllx.go:72-90). -/
def decodeManifest (env : Env) (manifestFile : Option ZipFile) :
    Except DllxError Manifest :=
  match manifestFile with
  | none => Except.error DllxError.manifestNotFound
  | some mf =>
    match mf.openErr with
    | some err => Except.error (DllxError.manifestOpen err)
    | none =>
      match env.jsonDecode mf.data mf.readErr with
      | Except.error err => Except.error (DllxError.manifestDecode err)
      | Except.ok manifest => Except.ok manifest

/-- The function `readManifestFromDllx` (dllx.go:55-91). -/
def readManifestFromDllx (env : Env) (dllxFile : String) :
    Except DllxError Manifest :=
  match env.zipOpen dllxFile with
  | Except.error err => Except.error (DllxError.zipOpen err)
  | Except.ok files => decodeManifest env (findManifest files)

/-- The `switch` of `loadLibrary` (dllx.go:99-112): the artifact path for the
detected platform, or `none` in the `default` case. -/
def platformFilePath (currentPlatform : String) (manifest : Manifest) :
    Option String :=
  if currentPlatform = "windows" then some (mapIndex manifest.Platforms "windows")
  else if currentPlatform = "darwin" then some (mapIndex manifest.Platforms "macos")
  else if currentPlatform = "linux" then some (mapIndex manifest.Platforms "linux")
  else if currentPlatform = "ios" then some (mapIndex manifest.Platforms "ios")
  else if currentPlatform = "android" then
    some (mapIndex manifest.Platforms "android")
  else none

/-- The function `loadLibrary` (dllx.go:94-123). -/
def loadLibrary (env : Env) (w : World) (dllxFile : String) (manifest : Manifest) :
    World × Except DllxError Plugin :=
  match platformFilePath env.GOOS manifest with
  | none => (w, Except.error (DllxError.unsupportedPlatform env.GOOS))
  | some path =>
    match extractDllx env.zipOpen w.fs dllxFile "./extracted" with
    | (fs1, some err) => (World.mk fs1 w.pluginOpens, Except.error err)
    | (fs1, none) =>
      let pluginFile := Join "./extracted" path
      (World.mk fs1 (w.pluginOpens ++ [pluginFile]),
        match env.pluginOpen fs1 pluginFile with
        | Except.error err => Except.error (DllxError.pluginOpen err)
        | Except.ok p => Except.ok p)

/-! ## Sample inputs -/

/-- A file entry that opens and reads without error. -/
def plainFile (name : String) (data : Bytes) : ZipFile :=
  ZipFile.mk name false none data none

/-- A directory entry. -/
def dirEntry (name : String) : ZipFile :=
  ZipFile.mk name true none [] none

/-- A working directory that holds the directory `extracted` and nothing else. -/
def fsExtracted : FS := FS.empty.set "extracted" Node.dir

/-- A working directory where a regular file occupies `extracted/d`. -/
def fsBlocked : FS := fsExtracted.set "extracted/d" (Node.file [7])

/-- A stand-in for the JSON decoder: the bytes are the package name. -/
def sampleDecode (data : Bytes) (readErr : Option String) : Except String Manifest :=
  match readErr with
  | some err => Except.error err
  | none => Except.ok (Manifest.mk (String.mk (data.map Char.ofNat)) none)

/-- An environment in which every path holds the archive `files` and no
plugin can be opened. -/
def sampleEnv (goos : String) (files : List ZipFile) : Env :=
  Env.mk goos (fun _ => Except.ok files) sampleDecode
    (fun _ _ => Except.error "plugin: not implemented")

/-- The archive of the round-trip property: files `a.txt` and `dir/b.txt`. -/
def roundTripArchive : List ZipFile :=
  [plainFile "a.txt" [104, 105], plainFile "dir/b.txt" [1, 2, 3]]

/-- An archive without a `manifest.json` entry. -/
def noManifestArchive : List ZipFile := [plainFile "lib.so" [1, 2, 3]]

/-- A manifest with an artifact for `linux` only. -/
def linuxManifest : Manifest := Manifest.mk "pkg" (some [("linux", "lib.so")])

/-- Two archives with the common name `a.txt`: `A.dllx` holds `a.txt` and
`c.txt`, `B.dllx` holds `a.txt` and `b.txt`. -/
def twoArchives (dllxFile : String) : Except String (List ZipFile) :=
  if dllxFile = "A.dllx" then Except.ok [plainFile "a.txt" [1], plainFile "c.txt" [2]]
  else if dllxFile = "B.dllx" then Except.ok [plainFile "a.txt" [9], plainFile "b.txt" [8]]
  else Except.error "open: no such file or directory"

/-- An archive whose only entry has a name with a parent-directory segment. -/
def traversalArchive : List ZipFile := [plainFile "../evil" [66]]

/-- An archive whose second entry names, through `..` segments, the file its
first entry wrote (working directory `/wd`), and cannot be opened. -/
def aliasArchive : List ZipFile :=
  [plainFile "a.txt" [1],
    ZipFile.mk "../../wd/extracted/a.txt" false
      (some "zip: unsupported compression algorithm") [] none]

/-- A working directory where `extracted/stale.txt` holds the byte `7`. -/
def fsStale : FS := fsExtracted.set "extracted/stale.txt" (Node.file [7])

/-- An archive whose only entry names `extracted/stale.txt` of the working
directory `/wd` through `..` segments. -/
def staleAliasArchive : List ZipFile := [plainFile "../../wd/extracted/stale.txt" [2]]

/-- An archive whose entry name has two parent-directory segments. -/
def deepTraversalArchive : List ZipFile := [plainFile "../../evil" [67]]

/-- An archive whose entry names start at the root. -/
def rootedArchive : List ZipFile := [dirEntry "/tmp/", plainFile "/tmp/evil" [68]]

/-! ## Lemmas on the file-system model -/

theorem FS.setLoc_same (fs : FS) (a : String) (n : Node) :
    (fs.setLoc a n).node a = some n := by
  simp [FS.setLoc]

theorem FS.setLoc_other (fs : FS) (a b : String) (n : Node) (h : b ≠ a) :
    (fs.setLoc a n).node b = fs.node b := by
  simp [FS.setLoc, h]

theorem FS.loc_congr (fs fs1 : FS) (h : fs1.resolve = fs.resolve) (p : String) :
    fs1.loc p = fs.loc p := by
  simp [FS.loc, h]

theorem FS.get_congr (fs fs1 : FS) (h : fs1.resolve = fs.resolve) (p : String) :
    fs1 p = fs1.node (fs.loc p) := by
  show fs1.node (fs1.loc p) = _
  rw [FS.loc_congr fs fs1 h]

theorem nodeFile_eq_some (n : Option Node) (c : Bytes) :
    nodeFile n = some c ↔ n = some (Node.file c) := by
  cases n with
  | none => simp [nodeFile]
  | some m =>
    cases m with
    | dir => simp [nodeFile]
    | file d => simp [nodeFile]

theorem fileAt_eq_some (fs : FS) (p : String) (c : Bytes) :
    fileAt fs p = some c ↔ fs p = some (Node.file c) :=
  nodeFile_eq_some (fs p) c

theorem statLoc_none (fs : FS) (a : String) (h : statLoc fs a = none) :
    fs.node a = none := by
  unfold statLoc at h
  split at h
  · cases h
  · exact h

/-- A successful `os.Create` keeps the resolution of paths and changes the tree
at the location of its path only, where it leaves an empty file. -/
theorem osCreate_ok (fs fs1 : FS) (p : String) (h : osCreate fs p = Except.ok fs1) :
    fs1.resolve = fs.resolve ∧ fs1.node = (fs.setLoc (fs.loc p) (Node.file [])).node := by
  unfold osCreate at h
  by_cases hp : p = ""
  · simp [hp] at h
  · simp only [hp, if_false] at h
    cases hf : fs.createFault fs.opened (fs.loc p) with
    | some cause => simp [hf] at h
    | none =>
      simp only [hf] at h
      cases hs : statLoc fs (fs.loc p) with
      | some n =>
        cases n with
        | dir => simp [hs] at h
        | file c =>
          simp only [hs, Except.ok.injEq] at h
          subst h
          exact ⟨rfl, rfl⟩
      | none =>
        simp only [hs] at h
        cases hw : walkDir fs (lineage (Dir (fs.loc p))) with
        | some cause => simp [hw] at h
        | none =>
          simp only [hw, Except.ok.injEq] at h
          subst h
          exact ⟨rfl, rfl⟩

theorem mkdirChain_resolve (fs : FS) (l : List String) : (mkdirChain fs l).1.resolve = fs.resolve := by
  induction l with
  | nil => rfl
  | cons a parents ih =>
    unfold mkdirChain
    split
    · rfl
    · rfl
    · simp only
      split
      · split
        · exact ih
        · exact ih
      · exact ih

/-- `os.MkdirAll` makes directories only: no file appears, disappears or
changes. -/
theorem mkdirChain_nodeFile (fs : FS) (l : List String) (b : String) :
    nodeFile ((mkdirChain fs l).1.node b) = nodeFile (fs.node b) := by
  induction l with
  | nil => rfl
  | cons a parents ih =>
    unfold mkdirChain
    split
    · rfl
    · rfl
    · rename_i hst
      simp only
      split
      · split
        · exact ih
        · by_cases hb : b = a
          · subst hb
            rw [FS.setLoc_same, statLoc_none fs b hst]
            rfl
          · rw [FS.setLoc_other _ _ _ _ hb]
            exact ih
      · exact ih

theorem MkdirAll_resolve (fs : FS) (p : String) : (MkdirAll fs p).1.resolve = fs.resolve := by
  unfold MkdirAll
  split
  · rfl
  · exact mkdirChain_resolve fs _

theorem MkdirAll_nodeFile (fs : FS) (p b : String) :
    nodeFile ((MkdirAll fs p).1.node b) = nodeFile (fs.node b) := by
  unfold MkdirAll
  split
  · rfl
  · exact mkdirChain_nodeFile fs _ b

theorem readFrom_resolve (fs : FS) (d : String) (data : Bytes) (re : Option String) :
    (readFrom fs d data re).1.resolve = fs.resolve := by
  unfold readFrom
  split <;> rfl

theorem readFrom_other (fs : FS) (d : String) (data : Bytes) (re : Option String)
    (b : String) (hb : b ≠ fs.loc d) :
    (readFrom fs d data re).1.node b = fs.node b := by
  unfold readFrom
  split
  · exact FS.setLoc_other _ _ _ _ hb
  · exact FS.setLoc_other _ _ _ _ hb

theorem readFrom_dest (fs : FS) (d : String) (data : Bytes) (re : Option String) :
    ∃ n, (readFrom fs d data re).1.node (fs.loc d) = some (Node.file (data.take n)) := by
  unfold readFrom
  split
  · rename_i n cause _
    exact ⟨n, FS.setLoc_same _ _ _⟩
  · exact ⟨data.length, by rw [List.take_length]; exact FS.setLoc_same _ _ _⟩

theorem readFrom_ok (fs : FS) (d : String) (data : Bytes) (re : Option String)
    (h : (readFrom fs d data re).2 = none) :
    (readFrom fs d data re).1.node (fs.loc d) = some (Node.file data) := by
  unfold readFrom at h ⊢
  split
  · rename_i n cause hw
    rw [hw] at h
    simp at h
  · exact FS.setLoc_same _ _ _

/-! ## Lemmas on the extraction loop -/

theorem extractEntry_dir (t : String) (fs : FS) (f : ZipFile) (h : f.IsDir = true) :
    extractEntry t fs f = ((MkdirAll fs (Join t f.Name)).1, none) := by
  simp [extractEntry, h]

/-- The loop body for a file entry, by the outcome of `os.Create`. -/
theorem extractEntry_file (t : String) (fs : FS) (f : ZipFile) (h : f.IsDir = false) :
    extractEntry t fs f =
      match osCreate fs (Join t f.Name) with
      | Except.error err => (fs, some (DllxError.createFile (Join t f.Name) err))
      | Except.ok fs1 =>
        match f.openErr with
        | some err => (fs1, some (DllxError.openInZip err))
        | none =>
          ((readFrom fs1 (Join t f.Name) f.data f.readErr).1,
            (readFrom fs1 (Join t f.Name) f.data f.readErr).2.map DllxError.extractFile) := by
  simp only [extractEntry, h, Bool.false_eq_true, if_false]
  cases osCreate fs (Join t f.Name) with
  | error err => rfl
  | ok fs1 =>
    cases f.openErr with
    | some err => rfl
    | none =>
      simp only
      cases hr : readFrom fs1 (Join t f.Name) f.data f.readErr with
      | mk fs2 oe =>
        cases oe with
        | some err => rfl
        | none => rfl

theorem extractEntry_resolve (t : String) (fs : FS) (f : ZipFile) :
    (extractEntry t fs f).1.resolve = fs.resolve := by
  cases hd : f.IsDir with
  | true => rw [extractEntry_dir t fs f hd]; exact MkdirAll_resolve fs _
  | false =>
    rw [extractEntry_file t fs f hd]
    cases hc : osCreate fs (Join t f.Name) with
    | error err => rfl
    | ok fs1 =>
      have h1 := (osCreate_ok fs fs1 _ hc).1
      cases ho : f.openErr with
      | some err => exact h1
      | none => exact (readFrom_resolve fs1 _ _ _).trans h1

/-- A file entry changes the tree at the location of its destination only. -/
theorem extractEntry_file_frame (t : String) (fs : FS) (f : ZipFile)
    (h : f.IsDir = false) (b : String) (hb : b ≠ fs.loc (Join t f.Name)) :
    (extractEntry t fs f).1.node b = fs.node b := by
  rw [extractEntry_file t fs f h]
  cases hc : osCreate fs (Join t f.Name) with
  | error err => rfl
  | ok fs1 =>
    obtain ⟨h1, h2⟩ := osCreate_ok fs fs1 _ hc
    have hn : fs1.node b = fs.node b := by
      rw [h2]
      exact FS.setLoc_other _ _ _ _ hb
    cases ho : f.openErr with
    | some err => exact hn
    | none =>
      simp only
      rw [readFrom_other fs1 _ _ _ b (by rw [FS.loc_congr fs fs1 h1]; exact hb)]
      exact hn

/-- A file entry that is extracted without error leaves its bytes at the
location of its destination. -/
theorem extractEntry_file_ok (t : String) (fs : FS) (f : ZipFile)
    (h : f.IsDir = false) (hr : (extractEntry t fs f).2 = none) :
    (extractEntry t fs f).1.node (fs.loc (Join t f.Name)) = some (Node.file f.data) := by
  rw [extractEntry_file t fs f h] at hr ⊢
  cases hc : osCreate fs (Join t f.Name) with
  | error err => rw [hc] at hr; simp at hr
  | ok fs1 =>
    obtain ⟨h1, _⟩ := osCreate_ok fs fs1 _ hc
    rw [hc] at hr
    cases ho : f.openErr with
    | some err => rw [ho] at hr; simp at hr
    | none =>
      rw [ho] at hr
      simp only [Option.map_eq_none'] at hr
      simp only
      rw [← FS.loc_congr fs fs1 h1]
      exact readFrom_ok fs1 _ _ _ hr

/-- Only file entries make the loop body fail. -/
theorem extractEntry_err_file (t : String) (fs : FS) (f : ZipFile) (e : DllxError)
    (hr : (extractEntry t fs f).2 = some e) : f.IsDir = false := by
  cases hd : f.IsDir with
  | false => rfl
  | true => rw [extractEntry_dir t fs f hd] at hr; cases hr

/-- The loop body keeps every file that is not at the location of the
destination of a file entry. -/
theorem extractEntry_nodeFile (t : String) (fs : FS) (f : ZipFile) (b : String)
    (hb : f.IsDir = false → b ≠ fs.loc (Join t f.Name)) :
    nodeFile ((extractEntry t fs f).1.node b) = nodeFile (fs.node b) := by
  cases hd : f.IsDir with
  | true => rw [extractEntry_dir t fs f hd]; exact MkdirAll_nodeFile fs _ b
  | false => rw [extractEntry_file_frame t fs f hd b (hb hd)]

theorem extractLoop_cons (t : String) (fs : FS) (f : ZipFile) (rest : List ZipFile) :
    extractLoop t fs (f :: rest) =
      if (extractEntry t fs f).2 = none then extractLoop t (extractEntry t fs f).1 rest
      else extractEntry t fs f := by
  rw [extractLoop]
  split
  · rename_i fs1 err h
    simp [h]
  · rename_i fs1 h
    simp [h]

theorem extractLoop_append (t : String) (fs : FS) (a b : List ZipFile) :
    extractLoop t fs (a ++ b) =
      if (extractLoop t fs a).2 = none then extractLoop t (extractLoop t fs a).1 b
      else extractLoop t fs a := by
  induction a generalizing fs with
  | nil => simp [extractLoop]
  | cons f rest ih =>
    rw [List.cons_append, extractLoop_cons, extractLoop_cons]
    by_cases h : (extractEntry t fs f).2 = none
    · simp only [h, if_true]
      exact ih _
    · simp only [h, if_false]

theorem extractLoop_resolve (t : String) (fs : FS) (files : List ZipFile) :
    (extractLoop t fs files).1.resolve = fs.resolve := by
  induction files generalizing fs with
  | nil => rfl
  | cons f rest ih =>
    rw [extractLoop_cons]
    split
    · exact (ih _).trans (extractEntry_resolve t fs f)
    · exact extractEntry_resolve t fs f

/-- The loop keeps every file that is not at the location of the destination
of a file entry. -/
theorem extractLoop_nodeFile (t : String) (fs : FS) (files : List ZipFile) (b : String)
    (hb : ∀ f ∈ files, f.IsDir = false → b ≠ fs.loc (Join t f.Name)) :
    nodeFile ((extractLoop t fs files).1.node b) = nodeFile (fs.node b) := by
  induction files generalizing fs with
  | nil => rfl
  | cons f rest ih =>
    have hf := extractEntry_nodeFile t fs f b (hb f (List.mem_cons_self _ _))
    rw [extractLoop_cons]
    split
    · rw [ih _ (fun g hg hd => by
        rw [FS.loc_congr fs _ (extractEntry_resolve t fs f)]
        exact hb g (List.mem_cons_of_mem _ hg) hd)]
      exact hf
    · exact hf

/-- A failing loop fails at one entry: the entries before it were extracted
without error, the loop body fails on it, and the result is the one of the
loop body there. -/
theorem extractLoop_fail_split (t : String) (fs : FS) (files : List ZipFile)
    (e : DllxError) (h : (extractLoop t fs files).2 = some e) :
    ∃ pre f post, files = pre ++ f :: post ∧ (extractLoop t fs pre).2 = none ∧
      extractEntry t (extractLoop t fs pre).1 f = extractLoop t fs files := by
  induction files generalizing fs with
  | nil => simp [extractLoop] at h
  | cons f rest ih =>
    rw [extractLoop_cons] at h ⊢
    by_cases hn : (extractEntry t fs f).2 = none
    · simp only [hn, if_true] at h ⊢
      obtain ⟨pre, g, post, hsplit, hpre, hg⟩ := ih _ h
      refine ⟨f :: pre, g, post, by simp [hsplit], ?_, ?_⟩
      · rw [extractLoop_cons]
        simp only [hn, if_true]
        exact hpre
      · rw [extractLoop_cons]
        simp only [hn, if_true]
        exact hg
    · simp only [hn, if_false] at h ⊢
      exact ⟨[], f, rest, rfl, rfl, rfl⟩

/-- After a loop without error every file entry's bytes are at the location of
its destination, unless a later file entry has its destination there. -/
theorem extractLoop_ok_content (t : String) (fs : FS) (pre post : List ZipFile)
    (f : ZipFile) (h : (extractLoop t fs (pre ++ f :: post)).2 = none)
    (hf : f.IsDir = false)
    (hpost : ∀ g ∈ post, g.IsDir = false →
      fs.loc (Join t g.Name) ≠ fs.loc (Join t f.Name)) :
    (extractLoop t fs (pre ++ f :: post)).1.node (fs.loc (Join t f.Name)) =
      some (Node.file f.data) := by
  rw [extractLoop_append] at h ⊢
  by_cases h1 : (extractLoop t fs pre).2 = none
  · simp only [h1, if_true] at h ⊢
    rw [extractLoop_cons] at h ⊢
    have hres0 := extractLoop_resolve t fs pre
    by_cases h2 : (extractEntry t (extractLoop t fs pre).1 f).2 = none
    · simp only [h2, if_true] at h ⊢
      have hres02 := (extractEntry_resolve t (extractLoop t fs pre).1 f).trans hres0
      have hfile := extractEntry_file_ok t (extractLoop t fs pre).1 f hf h2
      rw [FS.loc_congr fs _ hres0] at hfile
      rw [← nodeFile_eq_some, extractLoop_nodeFile t _ post _ (fun g hg hd => by
        rw [FS.loc_congr fs _ hres02]
        exact (hpost g hg hd).symm), nodeFile_eq_some]
      exact hfile
    · simp only [h2, if_false] at h
  · simp only [h1, if_false] at h

/-- The three ways the loop body fails on an entry, and what each leaves at
the destination: nothing new when the file cannot be created, an empty file
when the entry cannot be opened, the bytes written so far when the copy
fails. -/
theorem extractEntry_err_cases (t : String) (fs : FS) (f : ZipFile) (e : DllxError)
    (h : (extractEntry t fs f).2 = some e) :
    ((extractEntry t fs f).1 = fs ∧ ∃ c, osCreate fs (Join t f.Name) = Except.error c ∧
        e = DllxError.createFile (Join t f.Name) c)
    ∨ ((extractEntry t fs f).1.node (fs.loc (Join t f.Name)) = some (Node.file []) ∧
        ∃ c, f.openErr = some c ∧ e = DllxError.openInZip c)
    ∨ (∃ c n, e = DllxError.extractFile c ∧
        (extractEntry t fs f).1.node (fs.loc (Join t f.Name)) =
          some (Node.file (f.data.take n))) := by
  have hd := extractEntry_err_file t fs f e h
  rw [extractEntry_file t fs f hd] at h ⊢
  cases hc : osCreate fs (Join t f.Name) with
  | error c =>
    rw [hc] at h
    simp only [Option.some.injEq] at h
    exact Or.inl ⟨rfl, c, rfl, h.symm⟩
  | ok fs1 =>
    obtain ⟨h1, h2⟩ := osCreate_ok fs fs1 _ hc
    rw [hc] at h
    cases ho : f.openErr with
    | some c =>
      rw [ho] at h
      simp only [Option.some.injEq] at h
      refine Or.inr (Or.inl ⟨?_, c, rfl, h.symm⟩)
      simp only
      rw [h2]
      exact FS.setLoc_same _ _ _
    | none =>
      rw [ho] at h
      simp only [Option.map_eq_some'] at h
      obtain ⟨c, _, hc2⟩ := h
      obtain ⟨n, hn⟩ := readFrom_dest fs1 (Join t f.Name) f.data f.readErr
      rw [FS.loc_congr fs fs1 h1] at hn
      exact Or.inr (Or.inr ⟨c, n, hc2.symm, hn⟩)

/-- The loop body never returns the unsupported-platform error. -/
theorem extractEntry_not_unsupported (t : String) (fs : FS) (f : ZipFile)
    (e : DllxError) (h : (extractEntry t fs f).2 = some e) (s : String) :
    e ≠ DllxError.unsupportedPlatform s := by
  intro he
  subst he
  rcases extractEntry_err_cases t fs f _ h with ⟨_, c, _, h2⟩ | ⟨_, c, _, h2⟩ | ⟨c, n, h2, _⟩ <;>
    cases h2

theorem extractDllx_not_unsupported (zipOpen : String → Except String (List ZipFile))
    (fs fs1 : FS) (dllxFile t : String) (e : DllxError)
    (h : extractDllx zipOpen fs dllxFile t = (fs1, some e)) (s : String) :
    e ≠ DllxError.unsupportedPlatform s := by
  unfold extractDllx at h
  split at h
  · cases h
    intro hc
    cases hc
  · rename_i files _
    have h2 : (extractLoop t fs files).2 = some e := by rw [h]
    obtain ⟨pre, f, post, _, _, hf⟩ := extractLoop_fail_split t fs files e h2
    rw [← hf] at h2
    exact extractEntry_not_unsupported t _ f e h2 s

/-! ## Lemmas on the manifest search -/

theorem findManifest_none (files : List ZipFile) :
    findManifest files = none ↔ ∀ f ∈ files, f.Name ≠ "manifest.json" := by
  induction files with
  | nil => simp [findManifest]
  | cons f rest ih =>
    unfold findManifest
    by_cases h : f.Name = "manifest.json"
    · simp [h]
    · simp [h, ih]

theorem findManifest_first (pre post : List ZipFile) (mf : ZipFile)
    (hpre : ∀ f ∈ pre, f.Name ≠ "manifest.json") (hmf : mf.Name = "manifest.json") :
    findManifest (pre ++ mf :: post) = some mf := by
  induction pre with
  | nil => simp [findManifest, hmf]
  | cons f rest ih =>
    have hf : f.Name ≠ "manifest.json" := hpre f (List.mem_cons_self _ _)
    simp only [List.cons_append, findManifest, hf, if_false]
    exact ih (fun g hg => hpre g (List.mem_cons_of_mem _ hg))

theorem decodeManifest_some_ne (env : Env) (mf : ZipFile) :
    decodeManifest env (some mf) ≠ Except.error DllxError.manifestNotFound := by
  cases ho : mf.openErr with
  | some err => simp [decodeManifest, ho]
  | none =>
    cases hd : env.jsonDecode mf.data mf.readErr with
    | error err => simp [decodeManifest, ho, hd]
    | ok m => simp [decodeManifest, ho, hd]

/-! ## The claims -/

/-- C1. Platform resolution in `loadLibrary`: the resolved artifact path is
`manifest.Platforms[key]` with key `windows` for `windows`, `macos` for
`darwin`, `linux` for `linux`, `ios` for `ios` and `android` for `android`,
and it is the path joined onto `./extracted` and handed to `plugin.Open` when
extraction succeeds; `loadLibrary` returns the unsupported-platform error,
whose message names the detected OS, if and only if the detected OS name is
none of these five, and then does nothing else; `macos` as a detected OS name
is unsupported. -/
theorem loadLibrary_platform_resolution (env : Env) (w : World) (dllxFile : String)
    (manifest : Manifest) :
    (platformFilePath "windows" manifest = some (mapIndex manifest.Platforms "windows")
      ∧ platformFilePath "darwin" manifest = some (mapIndex manifest.Platforms "macos")
      ∧ platformFilePath "linux" manifest = some (mapIndex manifest.Platforms "linux")
      ∧ platformFilePath "ios" manifest = some (mapIndex manifest.Platforms "ios")
      ∧ platformFilePath "android" manifest = some (mapIndex manifest.Platforms "android"))
    ∧ (∀ path, platformFilePath env.GOOS manifest = some path →
        (extractDllx env.zipOpen w.fs dllxFile "./extracted").2 = none →
        (loadLibrary env w dllxFile manifest).1.pluginOpens =
          w.pluginOpens ++ [Join "./extracted" path])
    ∧ ((∃ s, (loadLibrary env w dllxFile manifest).2 =
          Except.error (DllxError.unsupportedPlatform s)) ↔
        env.GOOS ∉ ["windows", "darwin", "linux", "ios", "android"])
    ∧ (env.GOOS ∉ ["windows", "darwin", "linux", "ios", "android"] →
        loadLibrary env w dllxFile manifest =
          (w, Except.error (DllxError.unsupportedPlatform env.GOOS)))
    ∧ (DllxError.unsupportedPlatform env.GOOS).message =
        "unsupported platform: " ++ env.GOOS
    ∧ platformFilePath "macos" manifest = none := by
  have hnone : env.GOOS ∉ ["windows", "darwin", "linux", "ios", "android"] →
      platformFilePath env.GOOS manifest = none := by
    intro h
    simp only [List.mem_cons, List.mem_singleton, List.not_mem_nil, or_false, not_or] at h
    obtain ⟨h1, h2, h3, h4, h5⟩ := h
    simp [platformFilePath, h1, h2, h3, h4, h5]
  have hsome : env.GOOS ∈ ["windows", "darwin", "linux", "ios", "android"] →
      ∃ path, platformFilePath env.GOOS manifest = some path := by
    intro h
    simp only [List.mem_cons, List.mem_singleton, List.not_mem_nil, or_false] at h
    rcases h with h | h | h | h | h <;> rw [h] <;> exact ⟨_, rfl⟩
  refine ⟨⟨rfl, rfl, rfl, rfl, rfl⟩, ?_, ?_, ?_, rfl, rfl⟩
  · intro path hp hx
    unfold loadLibrary
    rw [hp]
    cases hres : extractDllx env.zipOpen w.fs dllxFile "./extracted" with
    | mk fs1 oe =>
      rw [hres] at hx
      simp only at hx
      subst hx
      rfl
  · constructor
    · rintro ⟨s, hs⟩
      intro hmem
      obtain ⟨path, hp⟩ := hsome hmem
      unfold loadLibrary at hs
      rw [hp] at hs
      cases hres : extractDllx env.zipOpen w.fs dllxFile "./extracted" with
      | mk fs1 oe =>
        rw [hres] at hs
        cases oe with
        | some e =>
          simp only at hs
          injection hs with he
          exact extractDllx_not_unsupported _ _ _ _ _ _ hres s he
        | none =>
          simp only at hs
          cases hpo : env.pluginOpen fs1 (Join "./extracted" path) with
          | error err => rw [hpo] at hs; simp at hs
          | ok p => rw [hpo] at hs; simp at hs
    · intro h
      refine ⟨env.GOOS, ?_⟩
      unfold loadLibrary
      rw [hnone h]
  · intro h
    unfold loadLibrary
    rw [hnone h]

/-- C2. For every archive, `readManifestFromDllx` returns the
manifest-not-found error if and only if no entry has a name exactly equal to
`manifest.json` (`dir/manifest.json`, `./manifest.json` and `MANIFEST.JSON` do
not count); when several entries are named `manifest.json`, the one decoded is
the first in archive order: the result is determined by that entry alone,
whatever entries precede or follow it. -/
theorem readManifestFromDllx_manifest_lookup (env : Env) (dllxFile : String)
    (files : List ZipFile) (hopen : env.zipOpen dllxFile = Except.ok files) :
    (readManifestFromDllx env dllxFile = Except.error DllxError.manifestNotFound ↔
        ∀ f ∈ files, f.Name ≠ "manifest.json")
    ∧ (∀ pre mf post, files = pre ++ mf :: post →
        (∀ f ∈ pre, f.Name ≠ "manifest.json") → mf.Name = "manifest.json" →
        readManifestFromDllx env dllxFile = decodeManifest env (some mf))
    ∧ findManifest [plainFile "dir/manifest.json" [], plainFile "./manifest.json" [],
        plainFile "MANIFEST.JSON" []] = none := by
  have hread : readManifestFromDllx env dllxFile =
      decodeManifest env (findManifest files) := by
    unfold readManifestFromDllx
    rw [hopen]
  refine ⟨?_, ?_, by decide⟩
  · rw [hread, ← findManifest_none]
    constructor
    · intro h
      cases hf : findManifest files with
      | none => rfl
      | some mf => rw [hf] at h; exact absurd h (decodeManifest_some_ne env mf)
    · intro h
      rw [h]
      rfl
  · intro pre mf post hsplit hpre hmf
    rw [hread, hsplit, findManifest_first pre post mf hpre hmf]

/-- C2, at a concrete archive: of two entries named `manifest.json` the first
is the one decoded, and an archive with only look-alike names has no
manifest. -/
theorem readManifestFromDllx_manifest_lookup_witness :
    readManifestFromDllx
        (sampleEnv "linux" [plainFile "lib.so" [1], plainFile "manifest.json" [97],
          plainFile "manifest.json" [98]]) "pkg.dllx" =
      Except.ok (Manifest.mk "a" none)
    ∧ readManifestFromDllx
        (sampleEnv "linux" [plainFile "dir/manifest.json" [97],
          plainFile "MANIFEST.JSON" [98]]) "pkg.dllx" =
      Except.error DllxError.manifestNotFound :=
  ⟨((readManifestFromDllx_manifest_lookup
        (sampleEnv "linux" [plainFile "lib.so" [1], plainFile "manifest.json" [97],
          plainFile "manifest.json" [98]]) "pkg.dllx" _ rfl).2.1
      [plainFile "lib.so" [1]] (plainFile "manifest.json" [97])
      [plainFile "manifest.json" [98]] rfl (by decide) rfl).trans rfl,
   (readManifestFromDllx_manifest_lookup
        (sampleEnv "linux" [plainFile "dir/manifest.json" [97],
          plainFile "MANIFEST.JSON" [98]]) "pkg.dllx" _ rfl).1.2 (by decide)⟩

/-- C3, as stated, fails: on `linux`, for an archive without a
`manifest.json` entry, `loadLibrary` extracts the archive (a file appears
under `extracted`) and hands a path to `plugin.Open`. -/
theorem loadLibrary_extracts_without_manifest :
    (∀ f ∈ noManifestArchive, f.Name ≠ "manifest.json")
    ∧ fsExtracted "extracted/lib.so" = none
    ∧ (loadLibrary (sampleEnv "linux" noManifestArchive) (World.mk fsExtracted [])
        "pkg.dllx" linuxManifest).1.fs "extracted/lib.so" = some (Node.file [1, 2, 3])
    ∧ (loadLibrary (sampleEnv "linux" noManifestArchive) (World.mk fsExtracted [])
        "pkg.dllx" linuxManifest).1.pluginOpens = ["extracted/lib.so"] := by
  refine ⟨by decide, by decide, by decide, by decide⟩

/-- C3, amended. For every archive without a `manifest.json` entry,
`readManifestFromDllx` fails with the manifest-not-found error, so no manifest
is obtained from it. `loadLibrary` receives the manifest as an argument and
does not look for the entry: on an unsupported platform it leaves the file
system unchanged and makes no plugin-open attempt; on a supported platform its
file-system effect is that of extracting the archive into `./extracted`, and
it makes one plugin-open attempt exactly when that extraction succeeds. -/
theorem loadLibrary_ignores_manifest_entry (env : Env) (w : World) (dllxFile : String)
    (manifest : Manifest) (files : List ZipFile)
    (hopen : env.zipOpen dllxFile = Except.ok files)
    (hno : ∀ f ∈ files, f.Name ≠ "manifest.json") :
    readManifestFromDllx env dllxFile = Except.error DllxError.manifestNotFound
    ∧ (env.GOOS ∉ ["windows", "darwin", "linux", "ios", "android"] →
        (loadLibrary env w dllxFile manifest).1.fs = w.fs
        ∧ (loadLibrary env w dllxFile manifest).1.pluginOpens = w.pluginOpens)
    ∧ (env.GOOS ∈ ["windows", "darwin", "linux", "ios", "android"] →
        (loadLibrary env w dllxFile manifest).1.fs =
          (extractLoop "./extracted" w.fs files).1
        ∧ ((extractLoop "./extracted" w.fs files).2 = none →
            ∃ path, platformFilePath env.GOOS manifest = some path ∧
              (loadLibrary env w dllxFile manifest).1.pluginOpens =
                w.pluginOpens ++ [Join "./extracted" path])
        ∧ ((extractLoop "./extracted" w.fs files).2 ≠ none →
            (loadLibrary env w dllxFile manifest).1.pluginOpens = w.pluginOpens)) := by
  have hx : extractDllx env.zipOpen w.fs dllxFile "./extracted" =
      extractLoop "./extracted" w.fs files := by
    unfold extractDllx
    rw [hopen]
  refine ⟨?_, ?_, ?_⟩
  · simp only [readManifestFromDllx, hopen, (findManifest_none files).2 hno, decodeManifest]
  · intro h
    simp only [List.mem_cons, List.mem_singleton, List.not_mem_nil, or_false, not_or] at h
    obtain ⟨h1, h2, h3, h4, h5⟩ := h
    have hp : platformFilePath env.GOOS manifest = none := by
      simp [platformFilePath, h1, h2, h3, h4, h5]
    unfold loadLibrary
    rw [hp]
    exact ⟨rfl, rfl⟩
  · intro h
    have hp : ∃ path, platformFilePath env.GOOS manifest = some path := by
      simp only [List.mem_cons, List.mem_singleton, List.not_mem_nil, or_false] at h
      rcases h with h | h | h | h | h <;> rw [h] <;> exact ⟨_, rfl⟩
    obtain ⟨path, hp⟩ := hp
    unfold loadLibrary
    rw [hp, hx]
    cases hres : extractLoop "./extracted" w.fs files with
    | mk fs1 oe =>
      cases oe with
      | some e =>
        refine ⟨rfl, ?_, ?_⟩
        · intro hc
          simp at hc
        · intro _
          rfl
      | none =>
        refine ⟨rfl, ?_, ?_⟩
        · intro _
          exact ⟨path, rfl, rfl⟩
        · intro hc
          exact absurd rfl hc

/-- C3 amended, at a concrete input: on `linux` the archive without a manifest
is extracted and the artifact path is handed to `plugin.Open`. -/
theorem loadLibrary_ignores_manifest_entry_witness :
    readManifestFromDllx (sampleEnv "linux" noManifestArchive) "pkg.dllx" =
      Except.error DllxError.manifestNotFound
    ∧ (loadLibrary (sampleEnv "linux" noManifestArchive) (World.mk fsExtracted [])
        "pkg.dllx" linuxManifest).1.fs =
      (extractLoop "./extracted" fsExtracted noManifestArchive).1 :=
  have h := loadLibrary_ignores_manifest_entry (sampleEnv "linux" noManifestArchive)
    (World.mk fsExtracted []) "pkg.dllx" linuxManifest noManifestArchive rfl (by decide)
  ⟨h.1, (h.2.2 (by decide)).1⟩

/-- C4. On a supported platform, for a manifest whose `Platforms` mapping is
nil, lacks the platform's key, or maps it to the empty string, `loadLibrary`
does not reject early: the resolved path is the empty string, the
unsupported-platform error is never returned, the archive is still extracted
into `./extracted`, and when extraction succeeds the path handed to
`plugin.Open` is the join of `./extracted` with the empty string, which is the
extraction directory itself, so that the only error `loadLibrary` can then
return is the one of `plugin.Open`. -/
theorem loadLibrary_empty_platform_path (env : Env) (w : World) (dllxFile : String)
    (manifest : Manifest) (key : String)
    (hsup : (env.GOOS, key) ∈ [("windows", "windows"), ("darwin", "macos"),
      ("linux", "linux"), ("ios", "ios"), ("android", "android")])
    (hmiss : manifest.Platforms = none
      ∨ (∃ kvs, manifest.Platforms = some kvs ∧ kvs.lookup key = none)
      ∨ (∃ kvs, manifest.Platforms = some kvs ∧ kvs.lookup key = some "")) :
    platformFilePath env.GOOS manifest = some ""
    ∧ (∀ s, (loadLibrary env w dllxFile manifest).2 ≠
        Except.error (DllxError.unsupportedPlatform s))
    ∧ (loadLibrary env w dllxFile manifest).1.fs =
        (extractDllx env.zipOpen w.fs dllxFile "./extracted").1
    ∧ Join "./extracted" "" = "extracted"
    ∧ Join "./extracted" "" = Clean "./extracted"
    ∧ ((extractDllx env.zipOpen w.fs dllxFile "./extracted").2 = none →
        (loadLibrary env w dllxFile manifest).1.pluginOpens =
          w.pluginOpens ++ [Join "./extracted" ""]
        ∧ ∀ e, (loadLibrary env w dllxFile manifest).2 = Except.error e →
            ∃ cause,
              env.pluginOpen (extractDllx env.zipOpen w.fs dllxFile "./extracted").1
                (Join "./extracted" "") = Except.error cause
              ∧ e = DllxError.pluginOpen cause) := by
  have hidx : mapIndex manifest.Platforms key = "" := by
    rcases hmiss with h | ⟨kvs, h, hk⟩ | ⟨kvs, h, hk⟩
    · simp [mapIndex, h]
    · simp [mapIndex, h, hk]
    · simp [mapIndex, h, hk]
  have hp : platformFilePath env.GOOS manifest = some "" := by
    simp only [List.mem_cons, List.mem_singleton, List.not_mem_nil, or_false,
      Prod.mk.injEq] at hsup
    rcases hsup with ⟨h1, h2⟩ | ⟨h1, h2⟩ | ⟨h1, h2⟩ | ⟨h1, h2⟩ | ⟨h1, h2⟩ <;>
      (subst h2; rw [h1, ← hidx]; rfl)
  refine ⟨hp, ?_, ?_, by decide, by decide, ?_⟩
  · intro s hs
    unfold loadLibrary at hs
    rw [hp] at hs
    cases hres : extractDllx env.zipOpen w.fs dllxFile "./extracted" with
    | mk fs1 oe =>
      rw [hres] at hs
      cases oe with
      | some e =>
        simp only at hs
        injection hs with he
        exact extractDllx_not_unsupported _ _ _ _ _ _ hres s he
      | none =>
        simp only at hs
        cases hpo : env.pluginOpen fs1 (Join "./extracted" "") with
        | error err => rw [hpo] at hs; simp at hs
        | ok p => rw [hpo] at hs; simp at hs
  · unfold loadLibrary
    rw [hp]
    cases hres : extractDllx env.zipOpen w.fs dllxFile "./extracted" with
    | mk fs1 oe =>
      cases oe with
      | some e => rfl
      | none => rfl
  · intro hx
    unfold loadLibrary
    rw [hp]
    cases hres : extractDllx env.zipOpen w.fs dllxFile "./extracted" with
    | mk fs1 oe =>
      rw [hres] at hx
      simp only at hx
      subst hx
      refine ⟨rfl, ?_⟩
      intro e he
      simp only at he
      cases hpo : env.pluginOpen fs1 (Join "./extracted" "") with
      | error err =>
        rw [hpo] at he
        simp only at he
        injection he with he
        exact ⟨err, rfl, he.symm⟩
      | ok p => rw [hpo] at he; simp at he

/-- C4, at a concrete input: on `darwin` with a manifest that has a `linux`
artifact only, the archive is extracted and `plugin.Open` receives
`extracted`. -/
theorem loadLibrary_empty_platform_path_witness :
    platformFilePath "darwin" linuxManifest = some ""
    ∧ (loadLibrary (sampleEnv "darwin" noManifestArchive) (World.mk fsExtracted [])
        "pkg.dllx" linuxManifest).1.pluginOpens = ["extracted"]
    ∧ (loadLibrary (sampleEnv "darwin" noManifestArchive) (World.mk fsExtracted [])
        "pkg.dllx" linuxManifest).1.fs "extracted/lib.so" = some (Node.file [1, 2, 3]) :=
  have h := loadLibrary_empty_platform_path (sampleEnv "darwin" noManifestArchive)
    (World.mk fsExtracted []) "pkg.dllx" linuxManifest "macos" (by decide)
    (Or.inr (Or.inl ⟨[("linux", "lib.so")], rfl, by decide⟩))
  ⟨h.1, (h.2.2.2.2.2 (by decide)).1.trans (by decide), by rw [h.2.2.1]; decide⟩

/-- C5 (code defect). `extractDllx` never creates the parent directory of a
file entry. For the archive with the files `a.txt` and `dir/b.txt` and the
target `./extracted`: when `extracted` exists and is empty, `a.txt` is written
and the extraction then fails at `dir/b.txt`, whose directory does not exist;
when `extracted` does not exist either, it fails at `a.txt`. With a directory
entry `dir/` in front of the two files the extraction succeeds and both files
hold their bytes. -/
theorem extractDllx_roundTrip_missing_parent :
    (extractDllx (fun _ => Except.ok roundTripArchive) fsExtracted "pkg.dllx"
        "./extracted").2 =
      some (DllxError.createFile "extracted/dir/b.txt"
        "open extracted/dir/b.txt: no such file or directory")
    ∧ (extractDllx (fun _ => Except.ok roundTripArchive) fsExtracted "pkg.dllx"
        "./extracted").1 "extracted/a.txt" = some (Node.file [104, 105])
    ∧ (extractDllx (fun _ => Except.ok roundTripArchive) fsExtracted "pkg.dllx"
        "./extracted").1 "extracted/dir/b.txt" = none
    ∧ extractDllx (fun _ => Except.ok roundTripArchive) FS.empty "pkg.dllx"
        "./extracted" =
      (FS.empty, some (DllxError.createFile "extracted/a.txt"
          "open extracted/a.txt: no such file or directory"))
    ∧ (extractDllx (fun _ => Except.ok (dirEntry "dir/" :: roundTripArchive)) FS.empty
        "pkg.dllx" "./extracted").2 = none
    ∧ (extractDllx (fun _ => Except.ok (dirEntry "dir/" :: roundTripArchive)) FS.empty
        "pkg.dllx" "./extracted").1 "extracted/a.txt" = some (Node.file [104, 105])
    ∧ (extractDllx (fun _ => Except.ok (dirEntry "dir/" :: roundTripArchive)) FS.empty
        "pkg.dllx" "./extracted").1 "extracted/dir/b.txt" = some (Node.file [1, 2, 3]) := by
  refine ⟨by decide, by decide, by decide, ?_, by decide, by decide, by decide⟩
  rfl

/-- C6 (code defect). Only the create-file error names the entry. For the
entry `a.txt` extracted into `./extracted`, the error returned when the entry
cannot be opened inside the zip, and the one returned when the copy fails
partway, consist of a fixed text and the underlying cause: neither the entry
name nor the destination path occurs in them; the error returned when the
destination file cannot be created does contain the destination path. -/
theorem extractDllx_error_omits_entry :
    (extractDllx
        (fun _ => Except.ok [ZipFile.mk "a.txt" false
          (some "zip: unsupported compression algorithm") [] none])
        fsExtracted "pkg.dllx" "./extracted").2 =
      some (DllxError.openInZip "zip: unsupported compression algorithm")
    ∧ (DllxError.openInZip "zip: unsupported compression algorithm").message =
        "failed to open file inside zip: zip: unsupported compression algorithm"
    ∧ mentions (DllxError.openInZip "zip: unsupported compression algorithm").message
        "a.txt" = false
    ∧ mentions (DllxError.openInZip "zip: unsupported compression algorithm").message
        (Join "./extracted" "a.txt") = false
    ∧ (extractDllx
        (fun _ => Except.ok [ZipFile.mk "a.txt" false none [104]
          (some "zip: checksum error")])
        fsExtracted "pkg.dllx" "./extracted").2 =
      some (DllxError.extractFile "zip: checksum error")
    ∧ (DllxError.extractFile "zip: checksum error").message =
        "failed to extract file: zip: checksum error"
    ∧ mentions (DllxError.extractFile "zip: checksum error").message "a.txt" = false
    ∧ mentions (DllxError.extractFile "zip: checksum error").message
        (Join "./extracted" "a.txt") = false
    ∧ (extractDllx (fun _ => Except.ok [plainFile "a.txt" [104]]) FS.empty "pkg.dllx"
        "./extracted").2 =
      some (DllxError.createFile "extracted/a.txt"
        "open extracted/a.txt: no such file or directory")
    ∧ mentions (DllxError.createFile "extracted/a.txt"
        "open extracted/a.txt: no such file or directory").message "extracted/a.txt"
        = true := by
  refine ⟨by decide, by decide, by decide, by decide, by decide, by decide, by decide,
    by decide, by decide, by decide⟩

/-- C7 (code defect). The result of `os.MkdirAll` is discarded. For the
archive with the single directory entry `d/`, extracted into `./extracted`
where a regular file occupies `extracted/d`, `os.MkdirAll` fails and
`extractDllx` nevertheless returns no error, leaving the regular file in
place; a directory entry whose directory already exists is no error either. -/
theorem extractDllx_ignores_mkdir_failure :
    fsBlocked "extracted/d" = some (Node.file [7])
    ∧ (MkdirAll fsBlocked (Join "./extracted" "d/")).2 = false
    ∧ (extractDllx (fun _ => Except.ok [dirEntry "d/"]) fsBlocked "pkg.dllx"
        "./extracted").2 = none
    ∧ (extractDllx (fun _ => Except.ok [dirEntry "d/"]) fsBlocked "pkg.dllx"
        "./extracted").1 "extracted/d" = some (Node.file [7])
    ∧ (MkdirAll (fsExtracted.set "extracted/d" Node.dir) (Join "./extracted" "d/")).2
        = true
    ∧ (extractDllx (fun _ => Except.ok [dirEntry "d/"])
        (fsExtracted.set "extracted/d" Node.dir) "pkg.dllx" "./extracted").2 = none := by
  refine ⟨by decide, by decide, by decide, by decide, by decide, by decide⟩

/-- C8. Extraction is not transactional. If `extractDllx` fails, it fails at
one entry `f` (index `pre.length`): the entries `pre` before it were processed
without error and nothing of their effect is rolled back; the result is the
one of the loop body for `f` on the file system they left, and differs from
that file system at most at the file the destination of `f` names; every
earlier file entry's destination holds that entry's bytes unless a later one
of the earlier entries wrote the same file (and, in the final file system,
unless `f` names that file too); the entries after `f` are never processed:
replacing them by any others gives the same result; and the destination of
`f` is left as it was when the file cannot be created, is empty when the entry
cannot be opened, and holds the bytes written so far when the copy fails.
Destinations are compared as the files they name (`FS.loc`), not as strings:
two different paths can name one file. -/
theorem extractDllx_not_transactional (zipOpen : String → Except String (List ZipFile))
    (fs : FS) (dllxFile targetDir : String) (files : List ZipFile) (err : DllxError)
    (hopen : zipOpen dllxFile = Except.ok files)
    (hfail : (extractDllx zipOpen fs dllxFile targetDir).2 = some err) :
    ∃ pre f post, files = pre ++ f :: post
      ∧ f.IsDir = false
      ∧ (extractLoop targetDir fs pre).2 = none
      ∧ extractEntry targetDir (extractLoop targetDir fs pre).1 f =
          extractDllx zipOpen fs dllxFile targetDir
      ∧ (∀ q, fs.loc q ≠ fs.loc (Join targetDir f.Name) →
          (extractDllx zipOpen fs dllxFile targetDir).1 q =
            (extractLoop targetDir fs pre).1 q)
      ∧ (∀ pre1 g pre2, pre = pre1 ++ g :: pre2 → g.IsDir = false →
          (∀ g2 ∈ pre2, g2.IsDir = false →
            fs.loc (Join targetDir g2.Name) ≠ fs.loc (Join targetDir g.Name)) →
          (extractLoop targetDir fs pre).1 (Join targetDir g.Name) =
            some (Node.file g.data)
          ∧ (fs.loc (Join targetDir g.Name) ≠ fs.loc (Join targetDir f.Name) →
              (extractDllx zipOpen fs dllxFile targetDir).1 (Join targetDir g.Name) =
                some (Node.file g.data)))
      ∧ (∀ post2, extractLoop targetDir fs (pre ++ f :: post2) =
          extractDllx zipOpen fs dllxFile targetDir)
      ∧ (((extractDllx zipOpen fs dllxFile targetDir).1 = (extractLoop targetDir fs pre).1
          ∧ ∃ c, err = DllxError.createFile (Join targetDir f.Name) c)
        ∨ ((extractDllx zipOpen fs dllxFile targetDir).1 (Join targetDir f.Name) =
            some (Node.file [])
          ∧ ∃ c, f.openErr = some c ∧ err = DllxError.openInZip c)
        ∨ (∃ c n, err = DllxError.extractFile c
          ∧ (extractDllx zipOpen fs dllxFile targetDir).1 (Join targetDir f.Name) =
            some (Node.file (f.data.take n)))) := by
  have hx : extractDllx zipOpen fs dllxFile targetDir =
      extractLoop targetDir fs files := by
    unfold extractDllx
    rw [hopen]
  rw [hx] at hfail ⊢
  obtain ⟨pre, f, post, hsplit, hpre, hres⟩ :=
    extractLoop_fail_split targetDir fs files err hfail
  have hfe : (extractEntry targetDir (extractLoop targetDir fs pre).1 f).2 = some err := by
    rw [hres]
    exact hfail
  have hdir := extractEntry_err_file targetDir _ f err hfe
  have hck : (extractLoop targetDir fs pre).1.resolve = fs.resolve := extractLoop_resolve targetDir fs pre
  have hcf : (extractLoop targetDir fs files).1.resolve = fs.resolve :=
    extractLoop_resolve targetDir fs files
  have hframe : ∀ q, fs.loc q ≠ fs.loc (Join targetDir f.Name) →
      (extractLoop targetDir fs files).1 q = (extractLoop targetDir fs pre).1 q := by
    intro q hq
    rw [FS.get_congr fs _ hcf, FS.get_congr fs _ hck, ← hres]
    exact extractEntry_file_frame targetDir _ f hdir _
      (by rw [FS.loc_congr fs _ hck]; exact hq)
  refine ⟨pre, f, post, hsplit, hdir, hpre, hres, hframe, ?_, ?_, ?_⟩
  · intro pre1 g pre2 hp hg hlater
    have hc : (extractLoop targetDir fs pre).1 (Join targetDir g.Name) =
        some (Node.file g.data) := by
      rw [FS.get_congr fs _ hck]
      subst hp
      exact extractLoop_ok_content targetDir fs pre1 pre2 g hpre hg hlater
    refine ⟨hc, ?_⟩
    intro hne
    rw [hframe _ hne]
    exact hc
  · intro post2
    rw [extractLoop_append, hpre, if_pos rfl, extractLoop_cons, hres, hfail]
    simp
  · rcases extractEntry_err_cases targetDir _ f err hfe with
      ⟨h1, c, _, h2⟩ | ⟨h1, c, h2, h3⟩ | ⟨c, n, h2, h1⟩
    · rw [hres] at h1
      exact Or.inl ⟨h1, c, h2⟩
    · rw [hres, FS.loc_congr fs _ hck] at h1
      refine Or.inr (Or.inl ⟨?_, c, h2, h3⟩)
      rw [FS.get_congr fs _ hcf]
      exact h1
    · rw [hres, FS.loc_congr fs _ hck] at h1
      refine Or.inr (Or.inr ⟨c, n, h2, ?_⟩)
      rw [FS.get_congr fs _ hcf]
      exact h1

/-- C8, at a concrete input: the archive `a.txt`, `dir/b.txt` extracted where
`extracted/dir` does not exist fails at the second entry and leaves the bytes
of `a.txt` on disk. When the failing entry names, by another path, the file an
earlier entry wrote, that file is the one truncated. -/
theorem extractDllx_not_transactional_witness :
    (extractDllx (fun _ => Except.ok roundTripArchive) fsExtracted "pkg.dllx"
        "./extracted").2 =
      some (DllxError.createFile "extracted/dir/b.txt"
        "open extracted/dir/b.txt: no such file or directory")
    ∧ (extractDllx (fun _ => Except.ok roundTripArchive) fsExtracted "pkg.dllx"
        "./extracted").1 "extracted/a.txt" = some (Node.file [104, 105])
    ∧ (∃ pre f post, roundTripArchive = pre ++ f :: post
        ∧ (extractLoop "./extracted" fsExtracted pre).2 = none
        ∧ extractEntry "./extracted" (extractLoop "./extracted" fsExtracted pre).1 f =
            extractDllx (fun _ => Except.ok roundTripArchive) fsExtracted "pkg.dllx"
              "./extracted")
    ∧ Join "./extracted" "../../wd/extracted/a.txt" ≠ Join "./extracted" "a.txt"
    ∧ fsExtracted.loc (Join "./extracted" "../../wd/extracted/a.txt") =
        fsExtracted.loc (Join "./extracted" "a.txt")
    ∧ (extractDllx (fun _ => Except.ok aliasArchive) fsExtracted "pkg.dllx"
        "./extracted").2 =
      some (DllxError.openInZip "zip: unsupported compression algorithm")
    ∧ (extractDllx (fun _ => Except.ok aliasArchive) fsExtracted "pkg.dllx"
        "./extracted").1 "extracted/a.txt" = some (Node.file []) :=
  ⟨by decide, by decide,
    (extractDllx_not_transactional (fun _ => Except.ok roundTripArchive) fsExtracted
      "pkg.dllx" "./extracted" roundTripArchive
      (DllxError.createFile "extracted/dir/b.txt"
        "open extracted/dir/b.txt: no such file or directory")
      rfl (by decide)).imp
      (fun _ h0 => h0.imp (fun _ h1 => h1.imp (fun _ h2 => ⟨h2.1, h2.2.2.1, h2.2.2.2.1⟩))),
    by decide, by decide, by decide, by decide⟩

/-- C9, as stated, fails: a path that is the `Join` of the target directory
with no entry name can still name the file an entry is written to. In working
directory `/wd` the entry `../../wd/extracted/stale.txt`, extracted into
`./extracted`, has the destination `../wd/extracted/stale.txt`, which is not
the path `extracted/stale.txt`; the extraction succeeds and the file at
`extracted/stale.txt` holds the entry's bytes instead of its own. -/
theorem extractDllx_alters_aliased_file :
    (∀ f ∈ staleAliasArchive, "extracted/stale.txt" ≠ Join "./extracted" f.Name)
    ∧ fileAt fsStale "extracted/stale.txt" = some [7]
    ∧ (extractDllx (fun _ => Except.ok staleAliasArchive) fsStale "pkg.dllx"
        "./extracted").2 = none
    ∧ fileAt (extractDllx (fun _ => Except.ok staleAliasArchive) fsStale "pkg.dllx"
        "./extracted").1 "extracted/stale.txt" = some [2] := by
  refine ⟨by decide, by decide, by decide, by decide⟩

/-- C9, amended. Extraction never removes or alters a file that no entry's
destination names. On success or on failure, every path that does not name
the same file as the destination `Join targetDir name` of an entry of the
archive (paths compared by the location they resolve to from the working
directory, `FS.loc`) names the same file with the same content after
`extractDllx` as before, and no file appears there; when the archive cannot be
opened the file system is unchanged. Hence, after archive A has been extracted
and archive B is extracted into the same directory, every file of A that no
destination of B names still holds A's bytes, whether B's extraction succeeds
or fails, and when it succeeds every file of B holds B's bytes, also where A
wrote the same file. -/
theorem extractDllx_keeps_stale_files (zipOpen : String → Except String (List ZipFile))
    (fs : FS) (targetDir : String) :
    (∀ dllxFile files, zipOpen dllxFile = Except.ok files →
      ∀ p, (∀ f ∈ files, fs.loc p ≠ fs.loc (Join targetDir f.Name)) →
        fileAt (extractDllx zipOpen fs dllxFile targetDir).1 p = fileAt fs p)
    ∧ (∀ dllxFile cause, zipOpen dllxFile = Except.error cause →
        (extractDllx zipOpen fs dllxFile targetDir).1 = fs)
    ∧ (∀ fileA fileB filesA filesB, zipOpen fileA = Except.ok filesA →
        zipOpen fileB = Except.ok filesB →
        (extractDllx zipOpen fs fileA targetDir).2 = none →
        (∀ preA a postA, filesA = preA ++ a :: postA → a.IsDir = false →
          (∀ g ∈ postA, fs.loc (Join targetDir g.Name) ≠ fs.loc (Join targetDir a.Name)) →
          (∀ b ∈ filesB, fs.loc (Join targetDir b.Name) ≠ fs.loc (Join targetDir a.Name)) →
          fileAt (extractDllx zipOpen (extractDllx zipOpen fs fileA targetDir).1 fileB
            targetDir).1 (Join targetDir a.Name) = some a.data)
        ∧ ((extractDllx zipOpen (extractDllx zipOpen fs fileA targetDir).1 fileB
            targetDir).2 = none →
          ∀ preB b postB, filesB = preB ++ b :: postB → b.IsDir = false →
            (∀ g ∈ postB, fs.loc (Join targetDir g.Name) ≠ fs.loc (Join targetDir b.Name)) →
            fileAt (extractDllx zipOpen (extractDllx zipOpen fs fileA targetDir).1 fileB
              targetDir).1 (Join targetDir b.Name) = some b.data)) := by
  have hx : ∀ (fs0 : FS) dllxFile files, zipOpen dllxFile = Except.ok files →
      extractDllx zipOpen fs0 dllxFile targetDir = extractLoop targetDir fs0 files := by
    intro fs0 dllxFile files h
    unfold extractDllx
    rw [h]
  refine ⟨?_, ?_, ?_⟩
  · intro dllxFile files hopen p hp
    rw [hx fs dllxFile files hopen]
    unfold fileAt
    rw [FS.get_congr fs _ (extractLoop_resolve targetDir fs files)]
    exact extractLoop_nodeFile targetDir fs files _ (fun f hf _ => hp f hf)
  · intro dllxFile cause hopen
    unfold extractDllx
    rw [hopen]
  · intro fileA fileB filesA filesB hA hB hokA
    rw [hx fs fileA filesA hA] at hokA ⊢
    rw [hx _ fileB filesB hB]
    have hcA : (extractLoop targetDir fs filesA).1.resolve = fs.resolve :=
      extractLoop_resolve targetDir fs filesA
    have hcB : (extractLoop targetDir (extractLoop targetDir fs filesA).1 filesB).1.resolve =
        fs.resolve := (extractLoop_resolve targetDir _ filesB).trans hcA
    refine ⟨?_, ?_⟩
    · intro preA a postA hsplit ha hlater hnotB
      unfold fileAt
      rw [FS.get_congr fs _ hcB, extractLoop_nodeFile targetDir _ filesB _ (fun b hb _ => by
        rw [FS.loc_congr fs _ hcA]
        exact (hnotB b hb).symm), nodeFile_eq_some]
      subst hsplit
      exact extractLoop_ok_content targetDir fs preA postA a hokA ha
        (fun g hg _ => hlater g hg)
    · intro hokB preB b postB hsplit hb hlater
      unfold fileAt
      rw [FS.get_congr fs _ hcB, nodeFile_eq_some, ← FS.loc_congr fs _ hcA]
      subst hsplit
      exact extractLoop_ok_content targetDir _ preB postB b hokB hb
        (fun g hg _ => by
          rw [FS.loc_congr fs _ hcA, FS.loc_congr fs _ hcA]
          exact hlater g hg)

/-- C9 amended, at a concrete input: after `A.dllx` and then `B.dllx` are
extracted into `./extracted`, the directory is mixed: `c.txt` of A is still
there, `b.txt` of B is there, and `a.txt` holds B's bytes. -/
theorem extractDllx_keeps_stale_files_witness :
    fileAt (extractDllx twoArchives
        (extractDllx twoArchives fsExtracted "A.dllx" "./extracted").1 "B.dllx"
        "./extracted").1 "extracted/c.txt" = some [2]
    ∧ fileAt (extractDllx twoArchives
        (extractDllx twoArchives fsExtracted "A.dllx" "./extracted").1 "B.dllx"
        "./extracted").1 "extracted/a.txt" = some [9]
    ∧ fileAt (extractDllx twoArchives
        (extractDllx twoArchives fsExtracted "A.dllx" "./extracted").1 "B.dllx"
        "./extracted").1 "extracted/b.txt" = some [8] :=
  have h := (extractDllx_keeps_stale_files twoArchives fsExtracted "./extracted").2.2
    "A.dllx" "B.dllx" _ _ rfl rfl (by decide)
  ⟨h.1 [plainFile "a.txt" [1]] (plainFile "c.txt" [2]) [] rfl rfl (by decide) (by decide),
   h.2 (by decide) [] (plainFile "a.txt" [9]) [plainFile "b.txt" [8]] rfl rfl (by decide),
   h.2 (by decide) [plainFile "a.txt" [9]] (plainFile "b.txt" [8]) [] rfl rfl (by decide)⟩

/-- C10. Entry names are not sanitized. The loop body never inspects the
entry name: a directory entry makes `Join targetDir name` with `os.MkdirAll`
and is never an error; a file entry is extracted without error exactly when
`os.Create` succeeds at `Join targetDir name`, the entry opens and the copy
completes, and otherwise fails with the error of the step that failed; it
writes the file that `Join targetDir name` names and no other, and on success
the entry's bytes are there. Names with parent-directory segments or an
absolute root are joined like any other. Consequently the archives with the
file entry `../evil`, and `../../evil`, are extracted into `./extracted`
without error and create a file outside the target directory, and an archive
with the rooted names `/tmp/` and `/tmp/evil` is extracted without error
too. -/
theorem extractDllx_no_sanitization :
    (∀ (targetDir : String) (fs : FS) (file : ZipFile), file.IsDir = true →
      extractEntry targetDir fs file =
        ((MkdirAll fs (Join targetDir file.Name)).1, none))
    ∧ (∀ (targetDir : String) (fs : FS) (file : ZipFile), file.IsDir = false →
      ((extractEntry targetDir fs file).2 = none ↔
        ∃ fs1, osCreate fs (Join targetDir file.Name) = Except.ok fs1
          ∧ file.openErr = none
          ∧ fs1.writeFault (fs1.loc (Join targetDir file.Name)) file.data = none
          ∧ file.readErr = none)
      ∧ (∀ e, (extractEntry targetDir fs file).2 = some e →
          (∃ c, osCreate fs (Join targetDir file.Name) = Except.error c
            ∧ e = DllxError.createFile (Join targetDir file.Name) c)
          ∨ (∃ c, file.openErr = some c ∧ e = DllxError.openInZip c)
          ∨ (∃ c, e = DllxError.extractFile c))
      ∧ (∀ q, fs.loc q ≠ fs.loc (Join targetDir file.Name) →
          (extractEntry targetDir fs file).1 q = fs q)
      ∧ ((extractEntry targetDir fs file).2 = none →
          (extractEntry targetDir fs file).1 (Join targetDir file.Name) =
            some (Node.file file.data)))
    ∧ Join "./extracted" "../evil" = "evil"
    ∧ Join "./extracted" "../../evil" = "../evil"
    ∧ Join "./extracted" "/tmp/evil" = "extracted/tmp/evil"
    ∧ isWithin (FS.empty.loc "./extracted") (FS.empty.loc "evil") = false
    ∧ isWithin (FS.empty.loc "./extracted") (FS.empty.loc "../evil") = false
    ∧ FS.empty "evil" = none
    ∧ (∃ files : List ZipFile,
        (extractDllx (fun _ => Except.ok files) FS.empty "pkg.dllx" "./extracted").2 = none
        ∧ (extractDllx (fun _ => Except.ok files) FS.empty "pkg.dllx" "./extracted").1
            "evil" = some (Node.file [66]))
    ∧ (extractDllx (fun _ => Except.ok deepTraversalArchive) FS.empty "pkg.dllx"
        "./extracted").2 = none
    ∧ (extractDllx (fun _ => Except.ok deepTraversalArchive) FS.empty "pkg.dllx"
        "./extracted").1 "../evil" = some (Node.file [67])
    ∧ (extractDllx (fun _ => Except.ok rootedArchive) FS.empty "pkg.dllx"
        "./extracted").2 = none
    ∧ (extractDllx (fun _ => Except.ok rootedArchive) FS.empty "pkg.dllx"
        "./extracted").1 "extracted/tmp/evil" = some (Node.file [68]) := by
  refine ⟨fun targetDir fs file h => extractEntry_dir targetDir fs file h, ?_,
    by decide, by decide, by decide, by decide, by decide, by decide,
    ⟨traversalArchive, by decide, by decide⟩, by decide, by decide, by decide, by decide⟩
  intro targetDir fs file hfile
  have hres0 := extractEntry_resolve targetDir fs file
  refine ⟨?_, ?_, ?_, ?_⟩
  · rw [extractEntry_file targetDir fs file hfile]
    cases hc : osCreate fs (Join targetDir file.Name) with
    | error c => simp
    | ok fs1 =>
      cases ho : file.openErr with
      | some c => simp
      | none =>
        simp only [Option.map_eq_none', Except.ok.injEq, true_and, exists_eq_left']
        unfold readFrom
        cases hw : fs1.writeFault (fs1.loc (Join targetDir file.Name)) file.data with
        | some nc => simp
        | none => simp
  · intro e he
    rcases extractEntry_err_cases targetDir fs file e he with
      ⟨_, c, h1, h2⟩ | ⟨_, c, h1, h2⟩ | ⟨c, n, h1, _⟩
    · exact Or.inl ⟨c, h1, h2⟩
    · exact Or.inr (Or.inl ⟨c, h1, h2⟩)
    · exact Or.inr (Or.inr ⟨c, h1⟩)
  · intro q hq
    rw [FS.get_congr fs _ hres0]
    exact extractEntry_file_frame targetDir fs file hfile _ hq
  · intro hok
    rw [FS.get_congr fs _ hres0]
    exact extractEntry_file_ok targetDir fs file hfile hok

end Dllx
